import Mathlib

/-!
# Validator: a shallow embedding of `validator.go`

The Go package `Validator` exposes one entry point, `Validate`, which walks the
fields of a struct by reflection, reads the `validate` tag of each field and
collects one `ValidationError` per violated directive.

Modelling conventions.

* A Go `string` holding valid UTF-8 is a Lean `String`; Go's `len` of a string
  is its number of bytes, `String.utf8ByteSize`.
* A Go `int` is a Lean `Int`.  The only place where the width of `int` is
  observable in `Validate` is `strconv.Atoi`, which rejects texts outside the
  range of `int`; the width is `intSize = 64`.
* `reflect` is modelled by what `Validate` observes of it: the kind of a value,
  the result of `String()` and of `Int()`, and per field the name, whether it is
  exported, and the result of `Tag.Get("validate")`.
* The Go `error` returned by `Validate` is an `Option error`; `none` is `nil`.
* Loops that append to `validationErrors` are folds threading that slice.
-/

namespace Validator

/-! ## Library functions used by `Validate` -/

/-- Go `len` on a string: the number of bytes of its UTF-8 encoding. -/
def len (s : String) : Nat := s.utf8ByteSize

/-- Width in bits of the Go type `int` (`strconv.IntSize`). -/
def intSize : Nat := 64

namespace strings

/-- Split a list of characters at every occurrence of `sep`
(the loop of `genSplit` with no limit on the number of pieces). -/
def splitAll (sep : Char) : List Char → List (List Char)
  | [] => [[]]
  | c :: cs =>
    if c = sep then [] :: splitAll sep cs
    else
      match splitAll sep cs with
      | [] => [[c]]
      | p :: ps => (c :: p) :: ps

/-- Cut a list of characters at the first occurrence of `sep`
(`Index` followed by the two slicings of `genSplit`). -/
def cut (sep : Char) : List Char → Option (List Char × List Char)
  | [] => none
  | c :: cs =>
    if c = sep then some ([], cs)
    else
      match cut sep cs with
      | none => none
      | some (a, b) => some (c :: a, b)

/-- Split into at most `n` pieces, the last one being the unsplit remainder
(`genSplit` with a positive limit; limit `0` gives no piece). -/
def splitAtMost (sep : Char) : Nat → List Char → List (List Char)
  | 0, _ => []
  | 1, s => [s]
  | n + 2, s =>
    match cut sep s with
    | none => [s]
    | some (a, b) => a :: splitAtMost sep (n + 1) b

/-- Go `strings.Split(s, sep)` for a one-character separator. -/
def Split (s : String) (sep : Char) : List String :=
  (splitAll sep s.data).map String.mk

/-- Go `strings.SplitN(s, sep, n)` for a one-character separator and `n ≥ 0`. -/
def SplitN (s : String) (sep : Char) (n : Nat) : List String :=
  (splitAtMost sep n s.data).map String.mk

end strings

namespace strconv

/-- Value of a decimal digit character, `none` for any other character. -/
def digit (c : Char) : Option Nat :=
  if '0' ≤ c ∧ c ≤ '9' then some (c.toNat - '0'.toNat) else none

/-- The digit loop of `ParseUint` in base 10, from the accumulator `acc`. -/
def parseDigits : Nat → List Char → Option Nat
  | acc, [] => some acc
  | acc, c :: cs =>
    match digit c with
    | none => none
    | some d => parseDigits (acc * 10 + d) cs

/-- Go `strconv.ParseUint(s, 10, _)` without the range check: the empty text is
a syntax error. -/
def parseUint : List Char → Option Nat
  | [] => none
  | cs => parseDigits 0 cs

/-- Go `strconv.Atoi`: an optional sign followed by one or more decimal digits,
whose value fits in an `int`; `none` stands for a non-nil `err`. -/
def Atoi (s : String) : Option Int :=
  match s.data with
  | [] => none
  | c :: cs =>
    let neg : Bool := c = '-'
    let ds := if c = '-' ∨ c = '+' then cs else c :: cs
    match parseUint ds with
    | none => none
    | some un =>
      let cutoff : Nat := 2 ^ (intSize - 1)
      if !neg ∧ un ≥ cutoff then none
      else if neg ∧ un > cutoff then none
      else some (if neg then -(un : Int) else (un : Int))

/-- Go `strconv.Itoa`, also the rendering of `%d` by `fmt.Sprintf`. -/
def Itoa (i : Int) : String :=
  if i < 0 then "-" ++ String.mk (Nat.toDigits 10 i.natAbs)
  else String.mk (Nat.toDigits 10 i.natAbs)

end strconv

/-! ## Data model -/

/-- The constants of `reflect.Kind`. -/
inductive Kind where
  | Invalid | Bool | Int | Int8 | Int16 | Int32 | Int64
  | Uint | Uint8 | Uint16 | Uint32 | Uint64 | Uintptr
  | Float32 | Float64 | Complex64 | Complex128
  | Array | Chan | Func | Interface | Map | Pointer | Slice
  | String | Struct | UnsafePointer
  deriving DecidableEq, Repr

/-- What `Validate` observes of the `reflect.Value` of a field: its kind, the
result of `String()` (read only when the kind is `String`) and the result of
`Int()` (read only when the kind is `Int`). -/
structure Value where
  kind : Kind
  str : String
  int : Int
  deriving DecidableEq, Repr

/-- The `i`-th field of a struct: `val.Type().Field(i)` and `val.Field(i)`.
`Tag` is the result of `field.Tag.Get("validate")`. -/
structure Field where
  Name : String
  IsExported : Bool
  Tag : String
  Value : Value
  deriving DecidableEq, Repr

/-- What `Validate` observes of `reflect.ValueOf(v)`: its kind and, when the
kind is `Struct`, its fields in declaration order. -/
structure Input where
  kind : Kind
  fields : List Field
  deriving DecidableEq, Repr

/-- Go `ValidationError`. -/
structure ValidationError where
  Field : String
  Error : String
  deriving DecidableEq, Repr

/-- Go `ValidationErrors`. -/
abbrev ValidationErrors := List ValidationError

/-- The non-nil `error` values `Validate` can return. -/
inductive error where
  | ErrNotStruct
  | ValidationErrors (v : ValidationErrors)
  deriving DecidableEq, Repr

/-- Text of `ErrNotStruct`. -/
def ErrNotStruct : String := "wrong argument given, should be a struct"

/-- Text of `ErrInvalidValidatorSyntax`. -/
def ErrInvalidValidatorSyntax : String := "invalid validator syntax"

/-- Text of `ErrValidateForUnexportedFields`. -/
def ErrValidateForUnexportedFields : String :=
  "validation for unexported field is not allowed"

/-! ## `Validate` -/

/-- First loop of `case "in"`: `empty` becomes true once a value is `""`. -/
def inEmpty (values : List String) : Bool :=
  values.foldl (fun empty value => if value = "" then true else empty) false

/-- Second loop of `case "in"`: `found`, with `break` at the first match.  The
last arm of the loop body only sets `empty`, which is not read afterwards. -/
def inFound (fieldValue : Value) : List String → Bool
  | [] => false
  | value :: rest =>
    if fieldValue.kind = Kind.String ∧ fieldValue.str = value then true
    else if fieldValue.kind = Kind.Int ∧ strconv.Itoa fieldValue.int = value then true
    else inFound fieldValue rest

/-- Body of the loop over `validators`: one directive, threading
`validationErrors`. -/
def validatorStep (name : String) (fieldValue : Value)
    (validationErrors : ValidationErrors) (validator : String) : ValidationErrors :=
  match strings.SplitN validator ':' 2 with
  | [kind, arg] =>
    if kind = "len" then
      match strconv.Atoi arg with
      | none => validationErrors ++ [⟨name, ErrInvalidValidatorSyntax⟩]
      | some expectedLen =>
        if fieldValue.kind = Kind.String ∧ (len fieldValue.str : Int) ≠ expectedLen then
          validationErrors ++ [⟨name, "should have length " ++ strconv.Itoa expectedLen⟩]
        else validationErrors
    else if kind = "in" then
      let values := strings.Split arg ','
      if inEmpty values then validationErrors ++ [⟨name, ErrInvalidValidatorSyntax⟩]
      else if !inFound fieldValue values then
        validationErrors ++ [⟨name, "should be one of " ++ arg⟩]
      else validationErrors
    else if kind = "min" then
      match strconv.Atoi arg with
      | none => validationErrors ++ [⟨name, ErrInvalidValidatorSyntax⟩]
      | some expectedMin =>
        if fieldValue.kind = Kind.String ∧ (len fieldValue.str : Int) < expectedMin then
          validationErrors ++ [⟨name, "should have length at least " ++ strconv.Itoa expectedMin⟩]
        else if fieldValue.kind = Kind.Int ∧ fieldValue.int < expectedMin then
          validationErrors ++ [⟨name, "should be at least " ++ strconv.Itoa expectedMin⟩]
        else validationErrors
    else if kind = "max" then
      match strconv.Atoi arg with
      | none => validationErrors ++ [⟨name, ErrInvalidValidatorSyntax⟩]
      | some expectedMax =>
        if fieldValue.kind = Kind.String ∧ (len fieldValue.str : Int) > expectedMax then
          validationErrors ++ [⟨name, "should have length at most " ++ strconv.Itoa expectedMax⟩]
        else if fieldValue.kind = Kind.Int ∧ fieldValue.int > expectedMax then
          validationErrors ++ [⟨name, "should be at most " ++ strconv.Itoa expectedMax⟩]
        else validationErrors
    else validationErrors ++ [⟨name, ErrInvalidValidatorSyntax⟩]
  | _ => validationErrors ++ [⟨name, ErrInvalidValidatorSyntax⟩]

/-- Body of the loop over the fields: one field, threading `validationErrors`. -/
def fieldStep (validationErrors : ValidationErrors) (field : Field) : ValidationErrors :=
  if field.Tag = "" then validationErrors
  else if !field.IsExported then
    validationErrors ++ [⟨field.Name, ErrValidateForUnexportedFields⟩]
  else
    (strings.Split field.Tag ';').foldl (validatorStep field.Name field.Value) validationErrors

/-- Go `ValidationErrors.Error`: the text written to the `strings.Builder`.  A
slice of length one writes the message of its entry; any other slice writes,
for each entry in order, the field, `": "`, the message and a newline. -/
def ValidationErrors.Error (v : ValidationErrors) : String :=
  match v with
  | [e] => e.Error
  | _ => v.foldl (fun b e => b ++ (e.Field ++ ": " ++ e.Error ++ "\n")) ""

/-- Go `Validate`. -/
def Validate (v : Input) : Option error :=
  if v.kind ≠ Kind.Struct then some error.ErrNotStruct
  else
    let validationErrors : ValidationErrors := v.fields.foldl fieldStep []
    if validationErrors.length > 0 then some (error.ValidationErrors validationErrors)
    else none

/-! ## Observations on the result -/

/-- The violations carried by a result of `Validate`: those of the aggregate,
none for `nil` and for `ErrNotStruct`. -/
def violations : Option error → List ValidationError
  | some (error.ValidationErrors v) => v
  | _ => []

/-- The violations one directive adds: `validatorStep` from the empty slice. -/
def validatorErrors (name : String) (fieldValue : Value) (validator : String) :
    ValidationErrors :=
  validatorStep name fieldValue [] validator

/-- The violations one field adds: `fieldStep` from the empty slice. -/
def fieldErrors (field : Field) : ValidationErrors :=
  fieldStep [] field

/-! ## Accumulation lemmas -/

theorem validatorStep_eq_append (name : String) (fieldValue : Value)
    (acc : ValidationErrors) (validator : String) :
    validatorStep name fieldValue acc validator
      = acc ++ validatorErrors name fieldValue validator := by
  unfold validatorErrors validatorStep
  split
  · repeat' split
    all_goals first
      | simp; done
      | (simp only []; split_ifs <;> simp)
  · simp

theorem validators_foldl (name : String) (fieldValue : Value) (ds : List String) :
    ∀ acc : ValidationErrors,
      ds.foldl (validatorStep name fieldValue) acc
        = acc ++ ds.flatMap (validatorErrors name fieldValue) := by
  induction ds with
  | nil => intro acc; simp
  | cons d ds ih =>
    intro acc
    rw [List.foldl_cons, ih, validatorStep_eq_append, List.flatMap_cons, List.append_assoc]

theorem fieldStep_eq_append (acc : ValidationErrors) (field : Field) :
    fieldStep acc field = acc ++ fieldErrors field := by
  unfold fieldErrors fieldStep
  split
  · simp
  · split
    · simp
    · rw [validators_foldl, validators_foldl]; simp

theorem fields_foldl (fs : List Field) :
    ∀ acc : ValidationErrors,
      fs.foldl fieldStep acc = acc ++ fs.flatMap fieldErrors := by
  induction fs with
  | nil => intro acc; simp
  | cons f fs ih =>
    intro acc
    rw [List.foldl_cons, ih, fieldStep_eq_append, List.flatMap_cons, List.append_assoc]

theorem validatorErrors_length_le (name : String) (fieldValue : Value) (validator : String) :
    (validatorErrors name fieldValue validator).length ≤ 1 := by
  unfold validatorErrors validatorStep
  split
  · repeat' split
    all_goals first
      | simp; done
      | (simp only []; split_ifs <;> simp)
  · simp

theorem fieldErrors_exported (f : Field) (hx : f.IsExported = true) (ht : f.Tag ≠ "") :
    fieldErrors f
      = (strings.Split f.Tag ';').flatMap (validatorErrors f.Name f.Value) := by
  unfold fieldErrors fieldStep
  rw [if_neg ht, validators_foldl]
  simp [hx]

theorem violations_Validate (fs : List Field) :
    violations (Validate ⟨Kind.Struct, fs⟩) = fs.flatMap fieldErrors := by
  unfold Validate
  simp only [ne_eq, not_true_eq_false, if_false, fields_foldl, List.nil_append]
  split
  · rfl
  · rename_i h
    simp only [gt_iff_lt, List.length_pos, ne_eq, not_not] at h
    simp [violations, h]

/-! ## Splitting lemmas -/

namespace strings

theorem splitAll_ne_nil (sep : Char) (s : List Char) : splitAll sep s ≠ [] := by
  cases s with
  | nil => simp [splitAll]
  | cons c cs =>
    unfold splitAll
    split
    · simp
    · split <;> simp

theorem splitAll_cons_ne (sep c : Char) (cs : List Char) (hc : c ≠ sep) :
    splitAll sep (c :: cs)
      = (c :: (splitAll sep cs).headD []) :: (splitAll sep cs).tail := by
  have h1 := splitAll_ne_nil sep cs
  cases hcs : splitAll sep cs with
  | nil => exact absurd hcs h1
  | cons p ps => simp [splitAll, hc, hcs]

theorem splitAll_append_sep (sep : Char) (a b : List Char) :
    splitAll sep (a ++ sep :: b) = splitAll sep a ++ splitAll sep b := by
  induction a with
  | nil => simp [splitAll]
  | cons c cs ih =>
    by_cases hc : c = sep
    · simp [splitAll, hc, ih]
    · have h1 := splitAll_ne_nil sep cs
      rw [List.cons_append, splitAll_cons_ne _ _ _ hc, splitAll_cons_ne _ _ _ hc, ih]
      cases hcs : splitAll sep cs with
      | nil => exact absurd hcs h1
      | cons p ps => simp

theorem splitAll_of_not_mem (sep : Char) (s : List Char) (h : sep ∉ s) :
    splitAll sep s = [s] := by
  induction s with
  | nil => rfl
  | cons c cs ih =>
    have hc : c ≠ sep := fun e => h (by simp [e])
    have hcs : sep ∉ cs := fun e => h (by simp [e])
    simp [splitAll, hc, ih hcs]

theorem cut_append_sep (sep : Char) (k rest : List Char) (h : sep ∉ k) :
    cut sep (k ++ sep :: rest) = some (k, rest) := by
  induction k with
  | nil => simp [cut]
  | cons c cs ih =>
    have hc : c ≠ sep := fun e => h (by simp [e])
    have hcs : sep ∉ cs := fun e => h (by simp [e])
    simp [cut, hc, ih hcs]

theorem cut_of_not_mem (sep : Char) (s : List Char) (h : sep ∉ s) :
    cut sep s = none := by
  induction s with
  | nil => rfl
  | cons c cs ih =>
    have hc : c ≠ sep := fun e => h (by simp [e])
    have hcs : sep ∉ cs := fun e => h (by simp [e])
    simp [cut, hc, ih hcs]

theorem SplitN_kind_arg (k arg : String) (h : ':' ∉ k.data) :
    SplitN (k ++ ":" ++ arg) ':' 2 = [k, arg] := by
  have hd : (k ++ ":" ++ arg).data = k.data ++ ':' :: arg.data := by
    simp [String.data_append]
  simp [SplitN, splitAtMost, hd, cut_append_sep _ _ _ h]

theorem Split_append_sep (a b : String) (sep : Char) :
    Split (a ++ String.singleton sep ++ b) sep = Split a sep ++ Split b sep := by
  have hd : (a ++ String.singleton sep ++ b).data = a.data ++ sep :: b.data := by
    simp [String.data_append, String.singleton]
  simp [Split, hd, splitAll_append_sep]

end strings

/-! ## One directive -/

theorem validatorErrors_len (name : String) (fieldValue : Value) (arg : String) :
    validatorErrors name fieldValue ("len:" ++ arg)
      = match strconv.Atoi arg with
        | none => [⟨name, ErrInvalidValidatorSyntax⟩]
        | some n =>
          if fieldValue.kind = Kind.String ∧ (len fieldValue.str : Int) ≠ n then
            [⟨name, "should have length " ++ strconv.Itoa n⟩]
          else [] := by
  have hs : strings.SplitN ("len:" ++ arg) ':' 2 = ["len", arg] :=
    strings.SplitN_kind_arg "len" arg (by decide)
  unfold validatorErrors validatorStep
  rw [hs]
  simp only [if_true, List.nil_append]

theorem validatorErrors_in (name : String) (fieldValue : Value) (arg : String) :
    validatorErrors name fieldValue ("in:" ++ arg)
      = if inEmpty (strings.Split arg ',') then [⟨name, ErrInvalidValidatorSyntax⟩]
        else if inFound fieldValue (strings.Split arg ',') then []
        else [⟨name, "should be one of " ++ arg⟩] := by
  have hs : strings.SplitN ("in:" ++ arg) ':' 2 = ["in", arg] :=
    strings.SplitN_kind_arg "in" arg (by decide)
  unfold validatorErrors validatorStep
  rw [hs]
  have h1 : ("in" : String) ≠ "len" := by decide
  simp only [if_neg h1, if_true, List.nil_append]
  split_ifs <;> simp_all

theorem validatorErrors_min (name : String) (fieldValue : Value) (arg : String) :
    validatorErrors name fieldValue ("min:" ++ arg)
      = match strconv.Atoi arg with
        | none => [⟨name, ErrInvalidValidatorSyntax⟩]
        | some n =>
          if fieldValue.kind = Kind.String ∧ (len fieldValue.str : Int) < n then
            [⟨name, "should have length at least " ++ strconv.Itoa n⟩]
          else if fieldValue.kind = Kind.Int ∧ fieldValue.int < n then
            [⟨name, "should be at least " ++ strconv.Itoa n⟩]
          else [] := by
  have hs : strings.SplitN ("min:" ++ arg) ':' 2 = ["min", arg] :=
    strings.SplitN_kind_arg "min" arg (by decide)
  unfold validatorErrors validatorStep
  rw [hs]
  have h1 : ("min" : String) ≠ "len" := by decide
  have h2 : ("min" : String) ≠ "in" := by decide
  simp only [if_neg h1, if_neg h2, if_true, List.nil_append]

theorem validatorErrors_max (name : String) (fieldValue : Value) (arg : String) :
    validatorErrors name fieldValue ("max:" ++ arg)
      = match strconv.Atoi arg with
        | none => [⟨name, ErrInvalidValidatorSyntax⟩]
        | some n =>
          if fieldValue.kind = Kind.String ∧ (len fieldValue.str : Int) > n then
            [⟨name, "should have length at most " ++ strconv.Itoa n⟩]
          else if fieldValue.kind = Kind.Int ∧ fieldValue.int > n then
            [⟨name, "should be at most " ++ strconv.Itoa n⟩]
          else [] := by
  have hs : strings.SplitN ("max:" ++ arg) ':' 2 = ["max", arg] :=
    strings.SplitN_kind_arg "max" arg (by decide)
  unfold validatorErrors validatorStep
  rw [hs]
  have h1 : ("max" : String) ≠ "len" := by decide
  have h2 : ("max" : String) ≠ "in" := by decide
  have h3 : ("max" : String) ≠ "min" := by decide
  simp only [if_neg h1, if_neg h2, if_neg h3, if_true, List.nil_append]

theorem inEmpty_foldl (values : List String) :
    ∀ b : Bool,
      values.foldl (fun empty value => if value = "" then true else empty) b
        = (b || decide ("" ∈ values)) := by
  induction values with
  | nil => intro b; simp
  | cons v vs ih =>
    intro b
    rw [List.foldl_cons, ih]
    by_cases hv : v = ""
    · simp [hv]
    · have hv2 : ¬ "" = v := fun e => hv e.symm
      simp [hv, hv2]

theorem inEmpty_iff (values : List String) : inEmpty values = true ↔ "" ∈ values := by
  unfold inEmpty
  rw [inEmpty_foldl]
  simp

theorem inFound_iff (fieldValue : Value) (values : List String) :
    inFound fieldValue values = true
      ↔ (fieldValue.kind = Kind.String ∧ fieldValue.str ∈ values)
        ∨ (fieldValue.kind = Kind.Int ∧ strconv.Itoa fieldValue.int ∈ values) := by
  induction values with
  | nil => simp [inFound]
  | cons v vs ih =>
    unfold inFound
    split_ifs with h1 h2
    · simp [h1.1, h1.2]
    · simp [h2.1, h2.2]
    · rw [ih]
      constructor
      · rintro (⟨hk, hm⟩ | ⟨hk, hm⟩)
        · exact Or.inl ⟨hk, List.mem_cons_of_mem _ hm⟩
        · exact Or.inr ⟨hk, List.mem_cons_of_mem _ hm⟩
      · rintro (⟨hk, hm⟩ | ⟨hk, hm⟩)
        · rcases List.mem_cons.mp hm with e | hm
          · exact absurd ⟨hk, e⟩ h1
          · exact Or.inl ⟨hk, hm⟩
        · rcases List.mem_cons.mp hm with e | hm
          · exact absurd ⟨hk, e⟩ h2
          · exact Or.inr ⟨hk, hm⟩

/-! ## One directive inside a record -/

theorem Split_empty (sep : Char) : strings.Split "" sep = [""] := rfl

theorem violations_at_directive (before after : List Field) (f : Field)
    (ds1 ds2 : List String) (d : String)
    (hx : f.IsExported = true) (hd : d ≠ "")
    (hs : strings.Split f.Tag ';' = ds1 ++ d :: ds2) :
    violations (Validate ⟨Kind.Struct, before ++ f :: after⟩)
      = (before.flatMap fieldErrors ++ ds1.flatMap (validatorErrors f.Name f.Value))
        ++ validatorErrors f.Name f.Value d
        ++ (ds2.flatMap (validatorErrors f.Name f.Value) ++ after.flatMap fieldErrors) := by
  have ht : f.Tag ≠ "" := by
    intro h
    rw [h, Split_empty] at hs
    cases ds1 with
    | nil =>
      simp only [List.nil_append, List.cons.injEq] at hs
      exact hd hs.1.symm
    | cons x xs =>
      cases xs <;> simp at hs
  rw [violations_Validate, List.flatMap_append, List.flatMap_cons,
    fieldErrors_exported f hx ht, hs, List.flatMap_append, List.flatMap_cons]
  simp only [List.append_assoc]

theorem kind_arg_ne_empty (k arg : String) (hk : k ≠ "") : k ++ arg ≠ "" := by
  intro h
  apply hk
  have := congrArg String.data h
  rw [String.data_append] at this
  apply String.ext
  simpa using (List.append_eq_nil.mp this).1

/-! ## Claims -/

/-- C1: violations come in field declaration order, then directive order.  The
violations returned for a record are the concatenation, over its fields in
declaration order, of each field's violations; the violations of an exported
field with non-empty metadata are the concatenation, over the directives
obtained by splitting the metadata at `;`, of each directive's violations; and
a directive yields at most one violation. -/
theorem C1_violation_order (v : Input) (hs : v.kind = Kind.Struct) :
    violations (Validate v) = v.fields.flatMap fieldErrors
    ∧ (∀ f : Field, f.IsExported = true → f.Tag ≠ "" →
        fieldErrors f
          = (strings.Split f.Tag ';').flatMap (validatorErrors f.Name f.Value))
    ∧ (∀ (name : String) (fieldValue : Value) (d : String),
        (validatorErrors name fieldValue d).length ≤ 1) := by
  obtain ⟨k, fs⟩ := v
  simp only at hs
  subst hs
  exact ⟨violations_Validate fs, fieldErrors_exported, validatorErrors_length_le⟩

/-- C1 at a record with two fields, the first carrying two directives. -/
theorem C1_violation_order_witness :
    violations (Validate ⟨Kind.Struct,
        [⟨"Name", true, "min:8;max:4", ⟨Kind.String, "abcdef", 0⟩⟩,
         ⟨"Age", true, "min:18", ⟨Kind.Int, "", 10⟩⟩]⟩)
      = [⟨"Name", "should have length at least 8"⟩,
         ⟨"Name", "should have length at most 4"⟩,
         ⟨"Age", "should be at least 18"⟩]
    ∧ fieldErrors ⟨"Name", true, "min:8;max:4", ⟨Kind.String, "abcdef", 0⟩⟩
      = validatorErrors "Name" ⟨Kind.String, "abcdef", 0⟩ "min:8"
        ++ validatorErrors "Name" ⟨Kind.String, "abcdef", 0⟩ "max:4" :=
  ⟨(C1_violation_order ⟨Kind.Struct,
        [⟨"Name", true, "min:8;max:4", ⟨Kind.String, "abcdef", 0⟩⟩,
         ⟨"Age", true, "min:18", ⟨Kind.Int, "", 10⟩⟩]⟩ rfl).1.trans (by decide),
   ((C1_violation_order ⟨Kind.Struct, []⟩ rfl).2.1
      ⟨"Name", true, "min:8;max:4", ⟨Kind.String, "abcdef", 0⟩⟩ rfl (by decide)).trans
      (by decide)⟩

/-- C2: for a record, `Validate` returns `nil` exactly when no field yields a
violation; otherwise it returns the aggregate, which is non-empty and is the
whole sequence of collected violations. -/
theorem C2_success_iff_no_violation (v : Input) (hs : v.kind = Kind.Struct) :
    (Validate v = none ↔ ∀ f ∈ v.fields, fieldErrors f = [])
    ∧ (∀ errs : ValidationErrors, Validate v = some (error.ValidationErrors errs) →
        errs ≠ [] ∧ errs = v.fields.foldl fieldStep []
          ∧ errs = v.fields.flatMap fieldErrors)
    ∧ (Validate v = none
        ∨ Validate v = some (error.ValidationErrors (v.fields.flatMap fieldErrors))) := by
  obtain ⟨k, fs⟩ := v
  simp only at hs
  subst hs
  have hfold : fs.foldl fieldStep [] = fs.flatMap fieldErrors := by
    rw [fields_foldl]; simp
  by_cases hnil : fs.flatMap fieldErrors = []
  · have hv : Validate ⟨Kind.Struct, fs⟩ = none := by
      simp [Validate, hfold, hnil]
    refine ⟨?_, ?_, Or.inl hv⟩
    · simp only [hv, true_iff]
      intro f hf
      simpa using (List.flatMap_eq_nil_iff.mp hnil) f hf
    · intro errs he
      rw [hv] at he
      cases he
  · have hv : Validate ⟨Kind.Struct, fs⟩
        = some (error.ValidationErrors (fs.flatMap fieldErrors)) := by
      have hpos : 0 < (fs.flatMap fieldErrors).length := List.length_pos.mpr hnil
      unfold Validate
      simp only [ne_eq, not_true_eq_false, if_false, hfold, gt_iff_lt]
      rw [if_pos hpos]
    refine ⟨?_, ?_, Or.inr hv⟩
    · constructor
      · intro h
        rw [hv] at h
        cases h
      · intro h
        exact absurd (List.flatMap_eq_nil_iff.mpr h) hnil
    · intro errs he
      rw [hv] at he
      injection he with he
      injection he with he
      subst he
      exact ⟨hnil, hfold.symm, rfl⟩

/-- C2 at a record with one valid and one invalid field. -/
theorem C2_success_iff_no_violation_witness :
    Validate ⟨Kind.Struct,
        [⟨"Code", true, "len:4", ⟨Kind.String, "abcd", 0⟩⟩,
         ⟨"Age", true, "min:18;max:65", ⟨Kind.Int, "", 10⟩⟩]⟩
      = some (error.ValidationErrors [⟨"Age", "should be at least 18"⟩])
    ∧ [⟨"Age", "should be at least 18"⟩]
      ≠ ([] : ValidationErrors) :=
  have h := (C2_success_iff_no_violation ⟨Kind.Struct,
        [⟨"Code", true, "len:4", ⟨Kind.String, "abcd", 0⟩⟩,
         ⟨"Age", true, "min:18;max:65", ⟨Kind.Int, "", 10⟩⟩]⟩ rfl).2.1
      [⟨"Age", "should be at least 18"⟩] (by decide)
  ⟨by decide, h.1⟩

/-- C3: an input whose kind is not `Struct` makes `Validate` return
`ErrNotStruct`, which carries no violation, whatever else the input holds. -/
theorem C3_not_a_struct (v : Input) (hk : v.kind ≠ Kind.Struct) :
    Validate v = some error.ErrNotStruct ∧ violations (Validate v) = [] := by
  simp [Validate, hk, violations]

/-- C3 at a pointer input, whose pointee's fields are not looked at. -/
theorem C3_not_a_struct_witness :
    Validate ⟨Kind.Pointer, [⟨"Code", true, "len:4", ⟨Kind.String, "abc", 0⟩⟩]⟩
      = some error.ErrNotStruct :=
  (C3_not_a_struct ⟨Kind.Pointer, [⟨"Code", true, "len:4", ⟨Kind.String, "abc", 0⟩⟩]⟩
    (by decide)).1

/-- C4: a field that has non-empty metadata and is not exported contributes
exactly one violation, `(name, "validation for unexported field is not
allowed")`, at its place among the violations of the other fields; the
contribution mentions neither the metadata nor the value of the field. -/
theorem C4_unexported_field (f : Field) (ht : f.Tag ≠ "") (hx : f.IsExported = false)
    (before after : List Field) :
    fieldErrors f = [⟨f.Name, "validation for unexported field is not allowed"⟩]
    ∧ violations (Validate ⟨Kind.Struct, before ++ f :: after⟩)
      = violations (Validate ⟨Kind.Struct, before⟩)
        ++ [⟨f.Name, "validation for unexported field is not allowed"⟩]
        ++ violations (Validate ⟨Kind.Struct, after⟩) := by
  have hf : fieldErrors f
      = [⟨f.Name, "validation for unexported field is not allowed"⟩] := by
    simp [fieldErrors, fieldStep, ht, hx, ErrValidateForUnexportedFields]
  refine ⟨hf, ?_⟩
  simp [violations_Validate, hf]

/-- C4 at an unexported field whose metadata is not even well formed. -/
theorem C4_unexported_field_witness :
    violations (Validate ⟨Kind.Struct,
        [⟨"Code", true, "len:4", ⟨Kind.String, "abc", 0⟩⟩,
         ⟨"secret", false, "no such directive", ⟨Kind.Bool, "", 0⟩⟩,
         ⟨"Age", true, "max:5", ⟨Kind.Int, "", 10⟩⟩]⟩)
      = [⟨"Code", "should have length 4"⟩,
         ⟨"secret", "validation for unexported field is not allowed"⟩,
         ⟨"Age", "should be at most 5"⟩] :=
  ((C4_unexported_field ⟨"secret", false, "no such directive", ⟨Kind.Bool, "", 0⟩⟩
      (by decide) rfl
      [⟨"Code", true, "len:4", ⟨Kind.String, "abc", 0⟩⟩]
      [⟨"Age", true, "max:5", ⟨Kind.Int, "", 10⟩⟩]).2).trans (by decide)

/-- Each shape of list named by the specification holds an empty literal: the
empty argument, a leading comma, a trailing comma, a doubled comma. -/
theorem empty_literal_shapes (L x y : String)
    (h : L = "" ∨ L = "," ++ x ∨ L = x ++ "," ∨ L = x ++ ",," ++ y) :
    "" ∈ strings.Split L ',' := by
  rcases h with h | h | h | h
  · subst h; decide
  · subst h
    have hd : ("," ++ x).data = ',' :: x.data := by simp [String.data_append]
    simp [strings.Split, hd, strings.splitAll]
  · subst h
    have hd : (x ++ ",").data = x.data ++ ',' :: [] := by simp [String.data_append]
    simp only [strings.Split, hd, strings.splitAll_append_sep, List.map_append,
      List.mem_append, List.mem_map]
    exact Or.inr ⟨[], by simp [strings.splitAll], rfl⟩
  · subst h
    have hd : (x ++ ",," ++ y).data = x.data ++ ',' :: (',' :: y.data) := by
      simp [String.data_append]
    simp only [strings.Split, hd, strings.splitAll_append_sep, List.map_append,
      List.mem_append, List.mem_map]
    exact Or.inr ⟨[], by simp [strings.splitAll], rfl⟩

/-- C5, as stated, fails: an `in` directive on an exported `bool` field yields a
violation, and so does a `len` directive with a non-integer argument on an
exported `int` field. -/
theorem C5_counterexample :
    Validate ⟨Kind.Struct, [⟨"Flag", true, "in:true,false", ⟨Kind.Bool, "", 0⟩⟩]⟩
      = some (error.ValidationErrors [⟨"Flag", "should be one of true,false"⟩])
    ∧ Validate ⟨Kind.Struct, [⟨"Age", true, "len:abc", ⟨Kind.Int, "", 7⟩⟩]⟩
      = some (error.ValidationErrors [⟨"Age", "invalid validator syntax"⟩]) := by
  decide

/-- C5 (amended): on an exported field, a `len` directive on a field that is not
a string, and a `min` or `max` directive on a field that is neither a string nor
an int, produce no violation when the argument parses as an integer: inside any
record the violations are those of the other directives and fields. -/
theorem C5_unsupported_kind_passes (before after : List Field) (f : Field)
    (ds1 ds2 : List String) (k arg : String) (N : Int)
    (hx : f.IsExported = true)
    (hk : (k = "len" ∧ f.Value.kind ≠ Kind.String)
        ∨ ((k = "min" ∨ k = "max")
            ∧ f.Value.kind ≠ Kind.String ∧ f.Value.kind ≠ Kind.Int))
    (hN : strconv.Atoi arg = some N)
    (hs : strings.Split f.Tag ';' = ds1 ++ (k ++ ":" ++ arg) :: ds2) :
    validatorErrors f.Name f.Value (k ++ ":" ++ arg) = []
    ∧ violations (Validate ⟨Kind.Struct, before ++ f :: after⟩)
      = (before.flatMap fieldErrors ++ ds1.flatMap (validatorErrors f.Name f.Value))
        ++ (ds2.flatMap (validatorErrors f.Name f.Value) ++ after.flatMap fieldErrors) := by
  have hd : k ++ ":" ++ arg ≠ "" := by
    rw [String.append_assoc]
    apply kind_arg_ne_empty
    rcases hk with ⟨h, _⟩ | ⟨h | h, _⟩ <;> subst h <;> decide
  have hnone : validatorErrors f.Name f.Value (k ++ ":" ++ arg) = [] := by
    rcases hk with ⟨h, h1⟩ | ⟨h | h, h1, h2⟩
    · subst h
      have := validatorErrors_len f.Name f.Value arg
      rw [hN] at this
      simpa [h1] using this
    · subst h
      have := validatorErrors_min f.Name f.Value arg
      rw [hN] at this
      simpa [h1, h2] using this
    · subst h
      have := validatorErrors_max f.Name f.Value arg
      rw [hN] at this
      simpa [h1, h2] using this
  refine ⟨hnone, ?_⟩
  rw [violations_at_directive before after f ds1 ds2 _ hx hd hs, hnone]
  simp

/-- C5 (amended) at `len:4` on an `int` field placed between two other fields. -/
theorem C5_unsupported_kind_passes_witness :
    violations (Validate ⟨Kind.Struct,
        [⟨"Code", true, "len:4", ⟨Kind.String, "abc", 0⟩⟩,
         ⟨"Age", true, "min:18;len:4", ⟨Kind.Int, "", 10⟩⟩,
         ⟨"Ratio", true, "max:5", ⟨Kind.Float64, "", 0⟩⟩]⟩)
      = [⟨"Code", "should have length 4"⟩, ⟨"Age", "should be at least 18"⟩] :=
  ((C5_unsupported_kind_passes
      [⟨"Code", true, "len:4", ⟨Kind.String, "abc", 0⟩⟩]
      [⟨"Ratio", true, "max:5", ⟨Kind.Float64, "", 0⟩⟩]
      ⟨"Age", true, "min:18;len:4", ⟨Kind.Int, "", 10⟩⟩
      ["min:18"] [] "len" "4" 4 rfl (Or.inl ⟨rfl, by decide⟩) (by decide) (by decide)).2).trans
    (by decide)

/-- C6: on an exported string field, a directive `len:N` whose argument parses
as the integer `N` yields the violation `(name, "should have length N")` when
the byte length of the string differs from `N`, and nothing otherwise; inside
any record this contribution stands at the directive's place. -/
theorem C6_len_directive (before after : List Field) (f : Field)
    (ds1 ds2 : List String) (arg : String) (N : Int)
    (hx : f.IsExported = true) (hk : f.Value.kind = Kind.String)
    (hN : strconv.Atoi arg = some N)
    (hs : strings.Split f.Tag ';' = ds1 ++ ("len:" ++ arg) :: ds2) :
    validatorErrors f.Name f.Value ("len:" ++ arg)
      = (if (len f.Value.str : Int) ≠ N then
          [⟨f.Name, "should have length " ++ strconv.Itoa N⟩]
        else [])
    ∧ violations (Validate ⟨Kind.Struct, before ++ f :: after⟩)
      = (before.flatMap fieldErrors ++ ds1.flatMap (validatorErrors f.Name f.Value))
        ++ (if (len f.Value.str : Int) ≠ N then
              [⟨f.Name, "should have length " ++ strconv.Itoa N⟩]
            else [])
        ++ (ds2.flatMap (validatorErrors f.Name f.Value) ++ after.flatMap fieldErrors) := by
  have hd : "len:" ++ arg ≠ "" := kind_arg_ne_empty _ _ (by decide)
  have hv : validatorErrors f.Name f.Value ("len:" ++ arg)
      = (if (len f.Value.str : Int) ≠ N then
          [⟨f.Name, "should have length " ++ strconv.Itoa N⟩]
        else []) := by
    rw [validatorErrors_len, hN]
    simp [hk]
  exact ⟨hv, by rw [violations_at_directive before after f ds1 ds2 _ hx hd hs, hv]⟩

/-- C6 at `Code string` with metadata `len:4`: value `"abc"` is reported, value
`"abcd"` is not. -/
theorem C6_len_directive_witness :
    violations (Validate ⟨Kind.Struct, [⟨"Code", true, "len:4", ⟨Kind.String, "abc", 0⟩⟩]⟩)
      = [⟨"Code", "should have length 4"⟩]
    ∧ violations (Validate ⟨Kind.Struct, [⟨"Code", true, "len:4", ⟨Kind.String, "abcd", 0⟩⟩]⟩)
      = [] :=
  ⟨((C6_len_directive [] [] ⟨"Code", true, "len:4", ⟨Kind.String, "abc", 0⟩⟩ [] [] "4" 4
        rfl rfl (by decide) (by decide)).2).trans (by decide),
   ((C6_len_directive [] [] ⟨"Code", true, "len:4", ⟨Kind.String, "abcd", 0⟩⟩ [] [] "4" 4
        rfl rfl (by decide) (by decide)).2).trans (by decide)⟩

/-- C7: on an exported string or int field, a directive `in:L` whose list `L`
holds no empty literal yields the violation `(name, "should be one of L")` when
the value (the string, or the decimal text of the int) is none of the literals
of `L`, and nothing otherwise; inside any record this contribution stands at
the directive's place. -/
theorem C7_in_directive (before after : List Field) (f : Field)
    (ds1 ds2 : List String) (L : String)
    (hx : f.IsExported = true)
    (hk : f.Value.kind = Kind.String ∨ f.Value.kind = Kind.Int)
    (hne : "" ∉ strings.Split L ',')
    (hs : strings.Split f.Tag ';' = ds1 ++ ("in:" ++ L) :: ds2) :
    validatorErrors f.Name f.Value ("in:" ++ L)
      = (if (if f.Value.kind = Kind.String then f.Value.str
              else strconv.Itoa f.Value.int) ∈ strings.Split L ',' then []
        else [⟨f.Name, "should be one of " ++ L⟩])
    ∧ violations (Validate ⟨Kind.Struct, before ++ f :: after⟩)
      = (before.flatMap fieldErrors ++ ds1.flatMap (validatorErrors f.Name f.Value))
        ++ (if (if f.Value.kind = Kind.String then f.Value.str
                  else strconv.Itoa f.Value.int) ∈ strings.Split L ',' then []
            else [⟨f.Name, "should be one of " ++ L⟩])
        ++ (ds2.flatMap (validatorErrors f.Name f.Value) ++ after.flatMap fieldErrors) := by
  have hd : "in:" ++ L ≠ "" := kind_arg_ne_empty _ _ (by decide)
  have hv : validatorErrors f.Name f.Value ("in:" ++ L)
      = (if (if f.Value.kind = Kind.String then f.Value.str
              else strconv.Itoa f.Value.int) ∈ strings.Split L ',' then []
        else [⟨f.Name, "should be one of " ++ L⟩]) := by
    have he : ¬ inEmpty (strings.Split L ',') = true := fun h => hne ((inEmpty_iff _).mp h)
    rw [validatorErrors_in, if_neg he]
    rcases hk with hk | hk
    · have hki : f.Value.kind ≠ Kind.Int := by rw [hk]; decide
      simp only [hk, if_true]
      by_cases hm : f.Value.str ∈ strings.Split L ','
      · rw [if_pos ((inFound_iff _ _).mpr (Or.inl ⟨hk, hm⟩)), if_pos hm]
      · have hnf : ¬ inFound f.Value (strings.Split L ',') = true := by
          rw [inFound_iff]
          rintro (⟨_, h⟩ | ⟨h, _⟩)
          · exact hm h
          · exact hki h
        rw [if_neg hnf, if_neg hm]
    · have hks : f.Value.kind ≠ Kind.String := by rw [hk]; decide
      simp only [if_neg hks]
      by_cases hm : strconv.Itoa f.Value.int ∈ strings.Split L ','
      · rw [if_pos ((inFound_iff _ _).mpr (Or.inr ⟨hk, hm⟩)), if_pos hm]
      · have hnf : ¬ inFound f.Value (strings.Split L ',') = true := by
          rw [inFound_iff]
          rintro (⟨h, _⟩ | ⟨_, h⟩)
          · exact hks h
          · exact hm h
        rw [if_neg hnf, if_neg hm]
  exact ⟨hv, by rw [violations_at_directive before after f ds1 ds2 _ hx hd hs, hv]⟩

/-- C7 at `Status string` with metadata `in:active,inactive` and value
`"paused"`, and at an int field whose decimal text is listed. -/
theorem C7_in_directive_witness :
    violations (Validate ⟨Kind.Struct,
        [⟨"Status", true, "in:active,inactive", ⟨Kind.String, "paused", 0⟩⟩]⟩)
      = [⟨"Status", "should be one of active,inactive"⟩]
    ∧ violations (Validate ⟨Kind.Struct,
        [⟨"Level", true, "in:1,-12,30", ⟨Kind.Int, "", -12⟩⟩]⟩)
      = [] :=
  ⟨((C7_in_directive [] []
        ⟨"Status", true, "in:active,inactive", ⟨Kind.String, "paused", 0⟩⟩ [] []
        "active,inactive" rfl (Or.inl rfl) (by decide) (by decide)).2).trans (by decide),
   ((C7_in_directive [] []
        ⟨"Level", true, "in:1,-12,30", ⟨Kind.Int, "", -12⟩⟩ [] []
        "1,-12,30" rfl (Or.inr rfl) (by decide) (by decide)).2).trans (by decide)⟩

/-- C8: on an exported field of any kind and value, a directive `in:L` whose
list `L` holds an empty literal yields exactly the violation
`(name, "invalid validator syntax")`; inside any record this contribution
stands at the directive's place. -/
theorem C8_in_empty_literal (before after : List Field) (f : Field)
    (ds1 ds2 : List String) (L : String)
    (hx : f.IsExported = true)
    (he : "" ∈ strings.Split L ',')
    (hs : strings.Split f.Tag ';' = ds1 ++ ("in:" ++ L) :: ds2) :
    validatorErrors f.Name f.Value ("in:" ++ L)
      = [⟨f.Name, "invalid validator syntax"⟩]
    ∧ violations (Validate ⟨Kind.Struct, before ++ f :: after⟩)
      = (before.flatMap fieldErrors ++ ds1.flatMap (validatorErrors f.Name f.Value))
        ++ [⟨f.Name, "invalid validator syntax"⟩]
        ++ (ds2.flatMap (validatorErrors f.Name f.Value) ++ after.flatMap fieldErrors) := by
  have hd : "in:" ++ L ≠ "" := kind_arg_ne_empty _ _ (by decide)
  have hv : validatorErrors f.Name f.Value ("in:" ++ L)
      = [⟨f.Name, "invalid validator syntax"⟩] := by
    rw [validatorErrors_in, if_pos ((inEmpty_iff _).mpr he)]
    rfl
  exact ⟨hv, by rw [violations_at_directive before after f ds1 ds2 _ hx hd hs, hv]⟩

/-- C8 at `Tag string` with metadata `in:,a,b`, for a value that is listed. -/
theorem C8_in_empty_literal_witness :
    violations (Validate ⟨Kind.Struct, [⟨"Tag", true, "in:,a,b", ⟨Kind.String, "a", 0⟩⟩]⟩)
      = [⟨"Tag", "invalid validator syntax"⟩] :=
  ((C8_in_empty_literal [] [] ⟨"Tag", true, "in:,a,b", ⟨Kind.String, "a", 0⟩⟩ [] [] ",a,b"
      rfl (empty_literal_shapes ",a,b" "a,b" "" (Or.inr (Or.inl (by decide))))
      (by decide)).2).trans (by decide)

/-- C9: a directive `min:N` whose argument parses as the integer `N` yields,
on an exported string field, the violation `(name, "should have length at least N")`
when the byte length of the string is less than `N`, and on an exported int field
the violation `(name, "should be at least N")` when the value is less than `N`;
it yields nothing otherwise, and inside any record this contribution stands at
the directive's place. -/
theorem C9_min_directive (before after : List Field) (f : Field)
    (ds1 ds2 : List String) (arg : String) (N : Int)
    (hx : f.IsExported = true)
    (hk : f.Value.kind = Kind.String ∨ f.Value.kind = Kind.Int)
    (hN : strconv.Atoi arg = some N)
    (hs : strings.Split f.Tag ';' = ds1 ++ ("min:" ++ arg) :: ds2) :
    validatorErrors f.Name f.Value ("min:" ++ arg)
      = (if f.Value.kind = Kind.String then
          (if (len f.Value.str : Int) < N then
            [⟨f.Name, "should have length at least " ++ strconv.Itoa N⟩]
          else [])
        else
          (if f.Value.int < N then [⟨f.Name, "should be at least " ++ strconv.Itoa N⟩]
          else []))
    ∧ violations (Validate ⟨Kind.Struct, before ++ f :: after⟩)
      = (before.flatMap fieldErrors ++ ds1.flatMap (validatorErrors f.Name f.Value))
        ++ (if f.Value.kind = Kind.String then
              (if (len f.Value.str : Int) < N then
                [⟨f.Name, "should have length at least " ++ strconv.Itoa N⟩]
              else [])
            else
              (if f.Value.int < N then
                [⟨f.Name, "should be at least " ++ strconv.Itoa N⟩]
              else []))
        ++ (ds2.flatMap (validatorErrors f.Name f.Value) ++ after.flatMap fieldErrors) := by
  have hd : "min:" ++ arg ≠ "" := kind_arg_ne_empty _ _ (by decide)
  have hv : validatorErrors f.Name f.Value ("min:" ++ arg)
      = (if f.Value.kind = Kind.String then
          (if (len f.Value.str : Int) < N then
            [⟨f.Name, "should have length at least " ++ strconv.Itoa N⟩]
          else [])
        else
          (if f.Value.int < N then [⟨f.Name, "should be at least " ++ strconv.Itoa N⟩]
          else [])) := by
    rw [validatorErrors_min, hN]
    rcases hk with hk | hk
    · have hki : f.Value.kind ≠ Kind.Int := by rw [hk]; decide
      simp only [hk, true_and, if_true]
      split_ifs <;> simp_all
    · have hks : f.Value.kind ≠ Kind.String := by rw [hk]; decide
      simp only [hk, true_and, false_and, if_false]
      split_ifs <;> simp_all
  exact ⟨hv, by rw [violations_at_directive before after f ds1 ds2 _ hx hd hs, hv]⟩

/-- C9 at `Age int` with metadata `min:18;max:65` and value `10`, and at a
string field shorter than the minimum. -/
theorem C9_min_directive_witness :
    violations (Validate ⟨Kind.Struct,
        [⟨"Age", true, "min:18;max:65", ⟨Kind.Int, "", 10⟩⟩]⟩)
      = [⟨"Age", "should be at least 18"⟩]
    ∧ violations (Validate ⟨Kind.Struct,
        [⟨"Name", true, "min:2;max:4", ⟨Kind.String, "a", 0⟩⟩]⟩)
      = [⟨"Name", "should have length at least 2"⟩] :=
  ⟨((C9_min_directive [] [] ⟨"Age", true, "min:18;max:65", ⟨Kind.Int, "", 10⟩⟩
        [] ["max:65"] "18" 18 rfl (Or.inr rfl) (by decide) (by decide)).2).trans (by decide),
   ((C9_min_directive [] [] ⟨"Name", true, "min:2;max:4", ⟨Kind.String, "a", 0⟩⟩
        [] ["max:4"] "2" 2 rfl (Or.inl rfl) (by decide) (by decide)).2).trans (by decide)⟩
/-- C10: a directive `max:N` whose argument parses as the integer `N` yields,
on an exported string field, the violation `(name, "should have length at most N")`
when the byte length of the string is greater than `N`, and on an exported int field
the violation `(name, "should be at most N")` when the value is greater than `N`;
it yields nothing otherwise, and inside any record this contribution stands at
the directive's place. -/
theorem C10_max_directive (before after : List Field) (f : Field)
    (ds1 ds2 : List String) (arg : String) (N : Int)
    (hx : f.IsExported = true)
    (hk : f.Value.kind = Kind.String ∨ f.Value.kind = Kind.Int)
    (hN : strconv.Atoi arg = some N)
    (hs : strings.Split f.Tag ';' = ds1 ++ ("max:" ++ arg) :: ds2) :
    validatorErrors f.Name f.Value ("max:" ++ arg)
      = (if f.Value.kind = Kind.String then
          (if (len f.Value.str : Int) > N then
            [⟨f.Name, "should have length at most " ++ strconv.Itoa N⟩]
          else [])
        else
          (if f.Value.int > N then [⟨f.Name, "should be at most " ++ strconv.Itoa N⟩]
          else []))
    ∧ violations (Validate ⟨Kind.Struct, before ++ f :: after⟩)
      = (before.flatMap fieldErrors ++ ds1.flatMap (validatorErrors f.Name f.Value))
        ++ (if f.Value.kind = Kind.String then
              (if (len f.Value.str : Int) > N then
                [⟨f.Name, "should have length at most " ++ strconv.Itoa N⟩]
              else [])
            else
              (if f.Value.int > N then
                [⟨f.Name, "should be at most " ++ strconv.Itoa N⟩]
              else []))
        ++ (ds2.flatMap (validatorErrors f.Name f.Value) ++ after.flatMap fieldErrors) := by
  have hd : "max:" ++ arg ≠ "" := kind_arg_ne_empty _ _ (by decide)
  have hv : validatorErrors f.Name f.Value ("max:" ++ arg)
      = (if f.Value.kind = Kind.String then
          (if (len f.Value.str : Int) > N then
            [⟨f.Name, "should have length at most " ++ strconv.Itoa N⟩]
          else [])
        else
          (if f.Value.int > N then [⟨f.Name, "should be at most " ++ strconv.Itoa N⟩]
          else [])) := by
    rw [validatorErrors_max, hN]
    rcases hk with hk | hk
    · have hki : f.Value.kind ≠ Kind.Int := by rw [hk]; decide
      simp only [hk, true_and, if_true]
      split_ifs <;> simp_all
    · have hks : f.Value.kind ≠ Kind.String := by rw [hk]; decide
      simp only [hk, true_and, false_and, if_false]
      split_ifs <;> simp_all
  exact ⟨hv, by rw [violations_at_directive before after f ds1 ds2 _ hx hd hs, hv]⟩

/-- C10 at `Name string` with metadata `min:2;max:4` and value `"abcdef"`, and
at an int field above the maximum. -/
theorem C10_max_directive_witness :
    violations (Validate ⟨Kind.Struct,
        [⟨"Name", true, "min:2;max:4", ⟨Kind.String, "abcdef", 0⟩⟩]⟩)
      = [⟨"Name", "should have length at most 4"⟩]
    ∧ violations (Validate ⟨Kind.Struct,
        [⟨"Age", true, "min:18;max:65", ⟨Kind.Int, "", 70⟩⟩]⟩)
      = [⟨"Age", "should be at most 65"⟩] :=
  ⟨((C10_max_directive [] [] ⟨"Name", true, "min:2;max:4", ⟨Kind.String, "abcdef", 0⟩⟩
        ["min:2"] [] "4" 4 rfl (Or.inl rfl) (by decide) (by decide)).2).trans (by decide),
   ((C10_max_directive [] [] ⟨"Age", true, "min:18;max:65", ⟨Kind.Int, "", 70⟩⟩
        ["min:18"] [] "65" 65 rfl (Or.inr rfl) (by decide) (by decide)).2).trans (by decide)⟩
/-! ## Malformed directives -/

theorem directive_ne_empty (k arg : String) : k ++ ":" ++ arg ≠ "" := by
  intro h
  have hd := congrArg String.data h
  simp [String.data_append] at hd

theorem validatorErrors_no_colon (name : String) (fieldValue : Value) (d : String)
    (h : ':' ∉ d.data) :
    validatorErrors name fieldValue d = [⟨name, ErrInvalidValidatorSyntax⟩] := by
  have hs : strings.SplitN d ':' 2 = [d] := by
    simp [strings.SplitN, strings.splitAtMost, strings.cut_of_not_mem _ _ h]
  unfold validatorErrors validatorStep
  rw [hs]
  simp

theorem validatorErrors_other (name : String) (fieldValue : Value) (k arg : String)
    (hc : ':' ∉ k.data) (h1 : k ≠ "len") (h2 : k ≠ "in") (h3 : k ≠ "min")
    (h4 : k ≠ "max") :
    validatorErrors name fieldValue (k ++ ":" ++ arg)
      = [⟨name, ErrInvalidValidatorSyntax⟩] := by
  unfold validatorErrors validatorStep
  rw [strings.SplitN_kind_arg k arg hc]
  simp only [if_neg h1, if_neg h2, if_neg h3, if_neg h4, List.nil_append]

theorem violations_at_directive_tag (before after : List Field) (f : Field)
    (ds1 ds2 : List String) (d : String)
    (hx : f.IsExported = true) (ht : f.Tag ≠ "")
    (hs : strings.Split f.Tag ';' = ds1 ++ d :: ds2) :
    violations (Validate ⟨Kind.Struct, before ++ f :: after⟩)
      = (before.flatMap fieldErrors ++ ds1.flatMap (validatorErrors f.Name f.Value))
        ++ validatorErrors f.Name f.Value d
        ++ (ds2.flatMap (validatorErrors f.Name f.Value) ++ after.flatMap fieldErrors) := by
  rw [violations_Validate, List.flatMap_append, List.flatMap_cons,
    fieldErrors_exported f hx ht, hs, List.flatMap_append, List.flatMap_cons]
  simp only [List.append_assoc]

/-- C11: on an exported field of any kind and value, a `len`, `min` or `max`
directive whose argument does not parse as an integer yields exactly the
violation `(name, "invalid validator syntax")`, hence no length or range
violation; inside any record this contribution stands at the directive's
place. -/
theorem C11_non_integer_argument (before after : List Field) (f : Field)
    (ds1 ds2 : List String) (k arg : String)
    (hx : f.IsExported = true)
    (hk : k = "len" ∨ k = "min" ∨ k = "max")
    (hN : strconv.Atoi arg = none)
    (hs : strings.Split f.Tag ';' = ds1 ++ (k ++ ":" ++ arg) :: ds2) :
    validatorErrors f.Name f.Value (k ++ ":" ++ arg)
      = [⟨f.Name, "invalid validator syntax"⟩]
    ∧ violations (Validate ⟨Kind.Struct, before ++ f :: after⟩)
      = (before.flatMap fieldErrors ++ ds1.flatMap (validatorErrors f.Name f.Value))
        ++ [⟨f.Name, "invalid validator syntax"⟩]
        ++ (ds2.flatMap (validatorErrors f.Name f.Value) ++ after.flatMap fieldErrors) := by
  have hv : validatorErrors f.Name f.Value (k ++ ":" ++ arg)
      = [⟨f.Name, "invalid validator syntax"⟩] := by
    rcases hk with h | h | h
    · subst h
      have := validatorErrors_len f.Name f.Value arg
      rw [hN] at this
      simpa [ErrInvalidValidatorSyntax] using this
    · subst h
      have := validatorErrors_min f.Name f.Value arg
      rw [hN] at this
      simpa [ErrInvalidValidatorSyntax] using this
    · subst h
      have := validatorErrors_max f.Name f.Value arg
      rw [hN] at this
      simpa [ErrInvalidValidatorSyntax] using this
  exact ⟨hv, by
    rw [violations_at_directive before after f ds1 ds2 _ hx (directive_ne_empty k arg) hs, hv]⟩

/-- C11 at `len:abc` on a string field of the right kind, at `min:` with an
empty argument on an int field, and at `max:1.5` on a float field. -/
theorem C11_non_integer_argument_witness :
    violations (Validate ⟨Kind.Struct,
        [⟨"Code", true, "len:abc", ⟨Kind.String, "abc", 0⟩⟩]⟩)
      = [⟨"Code", "invalid validator syntax"⟩]
    ∧ violations (Validate ⟨Kind.Struct,
        [⟨"Age", true, "min:;max:65", ⟨Kind.Int, "", 70⟩⟩]⟩)
      = [⟨"Age", "invalid validator syntax"⟩, ⟨"Age", "should be at most 65"⟩]
    ∧ violations (Validate ⟨Kind.Struct,
        [⟨"Ratio", true, "max:1.5", ⟨Kind.Float64, "", 0⟩⟩]⟩)
      = [⟨"Ratio", "invalid validator syntax"⟩] :=
  ⟨((C11_non_integer_argument [] [] ⟨"Code", true, "len:abc", ⟨Kind.String, "abc", 0⟩⟩
        [] [] "len" "abc" rfl (Or.inl rfl) (by decide) (by decide)).2).trans (by decide),
   ((C11_non_integer_argument [] [] ⟨"Age", true, "min:;max:65", ⟨Kind.Int, "", 70⟩⟩
        [] ["max:65"] "min" "" rfl (Or.inr (Or.inl rfl)) (by decide) (by decide)).2).trans
      (by decide),
   ((C11_non_integer_argument [] [] ⟨"Ratio", true, "max:1.5", ⟨Kind.Float64, "", 0⟩⟩
        [] [] "max" "1.5" rfl (Or.inr (Or.inr rfl)) (by decide) (by decide)).2).trans
      (by decide)⟩

/-- C12: on an exported field of any kind and value, a directive
`kind:argument` (the kind being the text before the first `:`) whose kind is
none of `len`, `in`, `min`, `max` yields exactly the violation
`(name, "invalid validator syntax")`, whatever the argument; inside any record
this contribution stands at the directive's place. -/
theorem C12_unknown_kind (before after : List Field) (f : Field)
    (ds1 ds2 : List String) (k arg : String)
    (hx : f.IsExported = true)
    (hc : ':' ∉ k.data)
    (hk : k ≠ "len" ∧ k ≠ "in" ∧ k ≠ "min" ∧ k ≠ "max")
    (hs : strings.Split f.Tag ';' = ds1 ++ (k ++ ":" ++ arg) :: ds2) :
    validatorErrors f.Name f.Value (k ++ ":" ++ arg)
      = [⟨f.Name, "invalid validator syntax"⟩]
    ∧ violations (Validate ⟨Kind.Struct, before ++ f :: after⟩)
      = (before.flatMap fieldErrors ++ ds1.flatMap (validatorErrors f.Name f.Value))
        ++ [⟨f.Name, "invalid validator syntax"⟩]
        ++ (ds2.flatMap (validatorErrors f.Name f.Value) ++ after.flatMap fieldErrors) := by
  have hv : validatorErrors f.Name f.Value (k ++ ":" ++ arg)
      = [⟨f.Name, "invalid validator syntax"⟩] :=
    validatorErrors_other f.Name f.Value k arg hc hk.1 hk.2.1 hk.2.2.1 hk.2.2.2
  exact ⟨hv, by
    rw [violations_at_directive before after f ds1 ds2 _ hx (directive_ne_empty k arg) hs, hv]⟩

/-- C12 at the kinds `length`, `Len` and the empty kind, on a value that would
satisfy the intended check. -/
theorem C12_unknown_kind_witness :
    violations (Validate ⟨Kind.Struct,
        [⟨"Code", true, "length:4", ⟨Kind.String, "abcd", 0⟩⟩]⟩)
      = [⟨"Code", "invalid validator syntax"⟩]
    ∧ violations (Validate ⟨Kind.Struct,
        [⟨"Code", true, "Len:4;:4", ⟨Kind.String, "abcd", 0⟩⟩]⟩)
      = [⟨"Code", "invalid validator syntax"⟩, ⟨"Code", "invalid validator syntax"⟩] :=
  ⟨((C12_unknown_kind [] [] ⟨"Code", true, "length:4", ⟨Kind.String, "abcd", 0⟩⟩
        [] [] "length" "4" rfl (by decide) (by decide) (by decide)).2).trans (by decide),
   ((C12_unknown_kind [] [] ⟨"Code", true, "Len:4;:4", ⟨Kind.String, "abcd", 0⟩⟩
        ["Len:4"] [] "" "4" rfl (by decide) (by decide) (by decide)).2).trans (by decide)⟩

/-- C13, as stated, fails: in metadata `oops;` the directive beside the
malformed `oops` is the empty one, which is reported as a second violation,
whereas the metadata left without `oops`, the empty metadata, is not evaluated
and reports nothing. -/
theorem C13_counterexample :
    strings.Split "oops;" ';' = ["oops", ""]
    ∧ Validate ⟨Kind.Struct, [⟨"Name", true, "oops;", ⟨Kind.String, "abcdef", 0⟩⟩]⟩
      = some (error.ValidationErrors
          [⟨"Name", "invalid validator syntax"⟩, ⟨"Name", "invalid validator syntax"⟩])
    ∧ Validate ⟨Kind.Struct, [⟨"Name", true, "", ⟨Kind.String, "abcdef", 0⟩⟩]⟩ = none := by
  decide

/-- C13 (amended): on an exported field with non-empty metadata, a directive
without `:` yields exactly the violation `(name, "invalid validator syntax")`,
which stands at the directive's place among the violations of the other
directives.  When the metadata made of the other directives alone is not
empty, those are the violations that metadata yields.  When it is empty (the
only other directive is the empty one), the empty directive is reported as one
more `"invalid validator syntax"` beside the malformed one, whereas the empty
metadata alone yields nothing. -/
theorem C13_missing_colon (before after : List Field) (f : Field)
    (ds1 ds2 : List String) (d : String)
    (hx : f.IsExported = true) (ht : f.Tag ≠ "")
    (hd : ':' ∉ d.data)
    (hs : strings.Split f.Tag ';' = ds1 ++ d :: ds2) :
    validatorErrors f.Name f.Value d = [⟨f.Name, "invalid validator syntax"⟩]
    ∧ violations (Validate ⟨Kind.Struct, before ++ f :: after⟩)
      = (before.flatMap fieldErrors ++ ds1.flatMap (validatorErrors f.Name f.Value))
        ++ [⟨f.Name, "invalid validator syntax"⟩]
        ++ (ds2.flatMap (validatorErrors f.Name f.Value) ++ after.flatMap fieldErrors)
    ∧ (∀ g : Field, g.Name = f.Name → g.Value = f.Value → g.IsExported = true →
        g.Tag ≠ "" → strings.Split g.Tag ';' = ds1 ++ ds2 →
        violations (Validate ⟨Kind.Struct, before ++ g :: after⟩)
          = (before.flatMap fieldErrors ++ ds1.flatMap (validatorErrors f.Name f.Value))
            ++ (ds2.flatMap (validatorErrors f.Name f.Value)
                ++ after.flatMap fieldErrors))
    ∧ (∀ g : Field, g.Tag = "" → strings.Split g.Tag ';' = ds1 ++ ds2 →
        violations (Validate ⟨Kind.Struct, before ++ f :: after⟩)
          = before.flatMap fieldErrors
            ++ [⟨f.Name, "invalid validator syntax"⟩,
                ⟨f.Name, "invalid validator syntax"⟩]
            ++ after.flatMap fieldErrors
        ∧ violations (Validate ⟨Kind.Struct, before ++ g :: after⟩)
          = before.flatMap fieldErrors ++ after.flatMap fieldErrors) := by
  have hv : validatorErrors f.Name f.Value d
      = [⟨f.Name, "invalid validator syntax"⟩] :=
    validatorErrors_no_colon f.Name f.Value d hd
  have hloc := violations_at_directive_tag before after f ds1 ds2 d hx ht hs
  rw [hv] at hloc
  refine ⟨hv, hloc, ?_, ?_⟩
  · intro g hn hval hgx hgt hgs
    rw [violations_Validate, List.flatMap_append, List.flatMap_cons,
      fieldErrors_exported g hgx hgt, hgs, List.flatMap_append, hn, hval]
    simp only [List.append_assoc]
  · intro g hgt hgs
    have hempty : validatorErrors f.Name f.Value ""
        = [⟨f.Name, "invalid validator syntax"⟩] :=
      validatorErrors_no_colon f.Name f.Value "" (by decide)
    have hg : violations (Validate ⟨Kind.Struct, before ++ g :: after⟩)
        = before.flatMap fieldErrors ++ after.flatMap fieldErrors := by
      have hnone : fieldErrors g = [] := by simp [fieldErrors, fieldStep, hgt]
      rw [violations_Validate, List.flatMap_append, List.flatMap_cons, hnone,
        List.nil_append]
    refine ⟨?_, hg⟩
    rw [hgt, Split_empty] at hgs
    rw [hloc]
    cases ds1 with
    | nil =>
      simp only [List.nil_append] at hgs
      rw [← hgs]
      simp [hempty]
    | cons x xs =>
      cases xs with
      | nil =>
        cases ds2 with
        | nil =>
          simp only [List.append_nil, List.cons.injEq, and_true] at hgs
          rw [← hgs]
          simp [hempty]
        | cons y ys => simp at hgs
      | cons y ys => simp at hgs

/-- C13 (amended) at metadata `min:8;oops;max:4`, compared with metadata
`min:8;max:4`, and at metadata `oops;`, compared with the empty metadata. -/
theorem C13_missing_colon_witness :
    violations (Validate ⟨Kind.Struct,
        [⟨"Name", true, "min:8;oops;max:4", ⟨Kind.String, "abcdef", 0⟩⟩]⟩)
      = [⟨"Name", "should have length at least 8"⟩,
         ⟨"Name", "invalid validator syntax"⟩,
         ⟨"Name", "should have length at most 4"⟩]
    ∧ violations (Validate ⟨Kind.Struct,
        [⟨"Name", true, "min:8;max:4", ⟨Kind.String, "abcdef", 0⟩⟩]⟩)
      = [⟨"Name", "should have length at least 8"⟩,
         ⟨"Name", "should have length at most 4"⟩]
    ∧ violations (Validate ⟨Kind.Struct,
        [⟨"Name", true, "oops;", ⟨Kind.String, "abcdef", 0⟩⟩]⟩)
      = [⟨"Name", "invalid validator syntax"⟩, ⟨"Name", "invalid validator syntax"⟩]
    ∧ violations (Validate ⟨Kind.Struct,
        [⟨"Name", true, "", ⟨Kind.String, "abcdef", 0⟩⟩]⟩)
      = [] :=
  have h := C13_missing_colon [] []
    ⟨"Name", true, "min:8;oops;max:4", ⟨Kind.String, "abcdef", 0⟩⟩
    ["min:8"] ["max:4"] "oops" rfl (by decide) (by decide) (by decide)
  have h2 := (C13_missing_colon [] []
    ⟨"Name", true, "oops;", ⟨Kind.String, "abcdef", 0⟩⟩
    [] [""] "oops" rfl (by decide) (by decide) (by decide)).2.2.2
    ⟨"Name", true, "", ⟨Kind.String, "abcdef", 0⟩⟩ rfl (by decide)
  ⟨h.2.1.trans (by decide),
   (h.2.2.1 ⟨"Name", true, "min:8;max:4", ⟨Kind.String, "abcdef", 0⟩⟩
      rfl rfl rfl (by decide) (by decide)).trans (by decide),
   h2.1.trans (by decide), h2.2.trans (by decide)⟩

/-! ## Rendering -/

theorem Error_foldl (l : ValidationErrors) :
    ∀ acc : String,
      l.foldl (fun b e => b ++ (e.Field ++ ": " ++ e.Error ++ "\n")) (acc ++ "\n")
        = String.intercalate.go acc "\n" (l.map (fun e => e.Field ++ ": " ++ e.Error))
          ++ "\n" := by
  induction l with
  | nil => intro acc; rfl
  | cons e l ih =>
    intro acc
    rw [List.foldl_cons, List.map_cons, String.intercalate.go, ← ih]
    simp only [String.append_assoc]

theorem Error_lines (l : ValidationErrors) :
    ∀ acc : String,
      l.foldl (fun b e => b ++ (e.Field ++ ": " ++ e.Error ++ "\n")) acc
        = acc ++ String.join (l.map (fun e => e.Field ++ ": " ++ e.Error ++ "\n")) := by
  have hj : ∀ (xs : List String) (a : String),
      xs.foldl (fun r s => r ++ s) a = a ++ xs.foldl (fun r s => r ++ s) "" := by
    intro xs
    induction xs with
    | nil => intro a; simp
    | cons x xs ihx =>
      intro a
      rw [List.foldl_cons, List.foldl_cons, ihx (a ++ x), ihx ("" ++ x)]
      simp [String.append_assoc]
  induction l with
  | nil => intro acc; simp [String.join]
  | cons e l ih =>
    intro acc
    rw [List.foldl_cons, ih, List.map_cons]
    simp only [String.join, List.foldl_cons]
    rw [hj _ ("" ++ _)]
    simp [String.append_assoc, String.join]

/-- C14, as stated, fails: the rendering of two violations ends with a newline,
so it is not the two entries joined by one newline. -/
theorem C14_counterexample :
    ValidationErrors.Error
        [⟨"Code", "should have length 4"⟩, ⟨"Age", "should be at least 18"⟩]
      = "Code: should have length 4\nAge: should be at least 18\n"
    ∧ ValidationErrors.Error
        [⟨"Code", "should have length 4"⟩, ⟨"Age", "should be at least 18"⟩]
      ≠ "\n".intercalate
          (List.map (fun e : ValidationError => e.Field ++ ": " ++ e.Error)
            [⟨"Code", "should have length 4"⟩, ⟨"Age", "should be at least 18"⟩]) := by
  decide

/-- C14 (amended): the rendering of two or more violations is made of the
strings `"<field>: <message>"` of its violations, in order, each followed by a
newline: it is those strings joined by newlines, followed by one more
newline. -/
theorem C14_render_many (v : ValidationErrors) (h : 2 ≤ v.length) :
    ValidationErrors.Error v
      = String.join (v.map (fun e => e.Field ++ ": " ++ e.Error ++ "\n"))
    ∧ ValidationErrors.Error v
      = "\n".intercalate (v.map (fun e => e.Field ++ ": " ++ e.Error)) ++ "\n" := by
  match v, h with
  | e1 :: e2 :: rest, _ =>
    constructor
    · show List.foldl _ "" (e1 :: e2 :: rest) = _
      rw [Error_lines]
      simp
    · show List.foldl _ "" (e1 :: e2 :: rest) = _
      rw [List.foldl_cons, List.map_cons, String.intercalate]
      have := Error_foldl (e2 :: rest) (e1.Field ++ ": " ++ e1.Error)
      simpa [String.append_assoc] using this

/-- C14 (amended) at the violations of a record with two invalid fields. -/
theorem C14_render_many_witness :
    ValidationErrors.Error
        [⟨"Code", "should have length 4"⟩, ⟨"Age", "should be at least 18"⟩]
      = "Code: should have length 4\nAge: should be at least 18" ++ "\n" :=
  ((C14_render_many
      [⟨"Code", "should have length 4"⟩, ⟨"Age", "should be at least 18"⟩]
      (by decide)).2).trans (by decide)

/-- C15: the rendering of an aggregate holding exactly one violation is that
violation's message, with neither the field name nor a separator. -/
theorem C15_render_one (v : ValidationErrors) (h : v.length = 1) :
    ∃ e : ValidationError, v = [e] ∧ ValidationErrors.Error v = e.Error := by
  match v, h with
  | [e], _ => exact ⟨e, rfl, rfl⟩

/-- C15 at the single violation of `Code string` with metadata `len:4`. -/
theorem C15_render_one_witness :
    ValidationErrors.Error [⟨"Code", "should have length 4"⟩] = "should have length 4" := by
  obtain ⟨e, he, hr⟩ := C15_render_one [⟨"Code", "should have length 4"⟩] rfl
  rw [hr]
  cases he
  rfl

/-! ## The separator of directives -/

theorem Split_of_not_mem (s : String) (sep : Char) (h : sep ∉ s.data) :
    strings.Split s sep = [s] := by
  simp [strings.Split, strings.splitAll_of_not_mem sep s.data h]

theorem Split_eq_singleton_empty (s : String) (sep : Char)
    (h : strings.Split s sep = [""]) : s = "" := by
  apply String.ext
  have hne := strings.splitAll_ne_nil sep
  cases hs : s.data with
  | nil => rfl
  | cons c cs =>
    exfalso
    simp only [strings.Split, hs] at h
    by_cases hc : c = sep
    · simp only [strings.splitAll, if_pos hc, List.map_cons, List.cons.injEq,
        List.map_eq_nil_iff] at h
      exact hne cs h.2
    · rw [strings.splitAll_cons_ne sep c cs hc] at h
      simp only [List.map_cons, List.cons.injEq] at h
      have := congrArg String.data h.1
      simp at this

theorem fieldErrors_two (name tag : String) (fieldValue : Value) (a b : String)
    (hs : strings.Split tag ';' = [a, b]) :
    fieldErrors ⟨name, true, tag, fieldValue⟩
      = validatorErrors name fieldValue a ++ validatorErrors name fieldValue b := by
  have ht : tag ≠ "" := by
    intro h
    rw [h, Split_empty] at hs
    simp at hs
  rw [fieldErrors_exported _ rfl ht]
  simp [hs]

/-- C16, as stated, fails: with `"; "` between two directives the second one
is read with its leading space and reported as invalid, whereas with `";"` it
is evaluated. -/
theorem C16_counterexample :
    Validate ⟨Kind.Struct, [⟨"Name", true, "min:2; max:4", ⟨Kind.String, "abcdef", 0⟩⟩]⟩
      = some (error.ValidationErrors [⟨"Name", "invalid validator syntax"⟩])
    ∧ Validate ⟨Kind.Struct, [⟨"Name", true, "min:2;max:4", ⟨Kind.String, "abcdef", 0⟩⟩]⟩
      = some (error.ValidationErrors [⟨"Name", "should have length at most 4"⟩]) := by
  decide

/-- C16 (amended): metadata is decomposed at `;` alone.  For an exported field
and directives `d1` and `d2 = kind:argument` free of `;`, with the kind of `d2`
one of `len`, `in`, `min`, `max`: metadata `d1;d2` yields the violations of
`d1` followed by those of `d2`, while metadata `d1; d2` yields the violations
of `d1` followed by the single violation `(name, "invalid validator syntax")`
for the directive `" " + d2`. -/
theorem C16_semicolon_separator (before after : List Field) (name : String)
    (fieldValue : Value) (d1 k2 a2 : String)
    (hd1 : ';' ∉ d1.data)
    (hk2 : k2 = "len" ∨ k2 = "in" ∨ k2 = "min" ∨ k2 = "max")
    (ha2 : ';' ∉ a2.data) :
    violations (Validate ⟨Kind.Struct,
        before ++ ⟨name, true, d1 ++ ";" ++ (k2 ++ ":" ++ a2), fieldValue⟩ :: after⟩)
      = before.flatMap fieldErrors
        ++ (validatorErrors name fieldValue d1
            ++ validatorErrors name fieldValue (k2 ++ ":" ++ a2))
        ++ after.flatMap fieldErrors
    ∧ violations (Validate ⟨Kind.Struct,
        before ++ ⟨name, true, d1 ++ "; " ++ (k2 ++ ":" ++ a2), fieldValue⟩ :: after⟩)
      = before.flatMap fieldErrors
        ++ (validatorErrors name fieldValue d1 ++ [⟨name, "invalid validator syntax"⟩])
        ++ after.flatMap fieldErrors := by
  have hk2c : ';' ∉ k2.data ∧ ':' ∉ (" " ++ k2).data ∧ " " ++ k2 ≠ "len"
      ∧ " " ++ k2 ≠ "in" ∧ " " ++ k2 ≠ "min" ∧ " " ++ k2 ≠ "max" := by
    rcases hk2 with h | h | h | h <;> subst h <;> decide
  have hd2 : ';' ∉ (k2 ++ ":" ++ a2).data := by
    simp only [String.data_append, List.mem_append, not_or]
    exact ⟨⟨hk2c.1, by decide⟩, ha2⟩
  have hd2s : ';' ∉ (" " ++ (k2 ++ ":" ++ a2)).data := by
    simp only [String.data_append, List.mem_append, not_or] at hd2 ⊢
    exact ⟨by decide, hd2⟩
  have hsplit1 : strings.Split (d1 ++ ";" ++ (k2 ++ ":" ++ a2)) ';'
      = [d1, k2 ++ ":" ++ a2] := by
    have := strings.Split_append_sep d1 (k2 ++ ":" ++ a2) ';'
    rw [Split_of_not_mem _ _ hd1, Split_of_not_mem _ _ hd2] at this
    exact this
  have hsplit2 : strings.Split (d1 ++ "; " ++ (k2 ++ ":" ++ a2)) ';'
      = [d1, " " ++ (k2 ++ ":" ++ a2)] := by
    have := strings.Split_append_sep d1 (" " ++ (k2 ++ ":" ++ a2)) ';'
    rw [Split_of_not_mem _ _ hd1, Split_of_not_mem _ _ hd2s] at this
    have he : d1 ++ "; " ++ (k2 ++ ":" ++ a2)
        = d1 ++ String.singleton ';' ++ (" " ++ (k2 ++ ":" ++ a2)) := by
      apply String.ext
      simp [String.data_append, String.singleton]
    rw [he]
    exact this
  have hbad : validatorErrors name fieldValue (" " ++ (k2 ++ ":" ++ a2))
      = [⟨name, "invalid validator syntax"⟩] := by
    have he : " " ++ (k2 ++ ":" ++ a2) = (" " ++ k2) ++ ":" ++ a2 := by
      simp only [String.append_assoc]
    rw [he]
    exact validatorErrors_other name fieldValue (" " ++ k2) a2 hk2c.2.1 hk2c.2.2.1
      hk2c.2.2.2.1 hk2c.2.2.2.2.1 hk2c.2.2.2.2.2
  constructor
  · rw [violations_Validate, List.flatMap_append, List.flatMap_cons,
      fieldErrors_two name _ fieldValue _ _ hsplit1]
    simp only [List.append_assoc]
  · rw [violations_Validate, List.flatMap_append, List.flatMap_cons,
      fieldErrors_two name _ fieldValue _ _ hsplit2, hbad]
    simp only [List.append_assoc]

/-- C16 (amended) at `Name string` with value `"abcdef"` and the directives
`min:2` and `max:4`. -/
theorem C16_semicolon_separator_witness :
    violations (Validate ⟨Kind.Struct,
        [⟨"Name", true, "min:2;max:4", ⟨Kind.String, "abcdef", 0⟩⟩]⟩)
      = [⟨"Name", "should have length at most 4"⟩]
    ∧ violations (Validate ⟨Kind.Struct,
        [⟨"Name", true, "min:2; max:4", ⟨Kind.String, "abcdef", 0⟩⟩]⟩)
      = [⟨"Name", "invalid validator syntax"⟩] :=
  have h := C16_semicolon_separator [] [] "Name" ⟨Kind.String, "abcdef", 0⟩
    "min:2" "max" "4" (by decide) (Or.inr (Or.inr (Or.inr rfl))) (by decide)
  ⟨h.1.trans (by decide), h.2.trans (by decide)⟩

/-! ## Whole records -/

theorem Validate_struct (fs : List Field) :
    Validate ⟨Kind.Struct, fs⟩
      = if (fs.flatMap fieldErrors).length > 0 then
          some (error.ValidationErrors (fs.flatMap fieldErrors))
        else none := by
  unfold Validate
  simp only [ne_eq, not_true_eq_false, if_false, fields_foldl, List.nil_append]

theorem fieldErrors_no_tag (f : Field) (h : f.Tag = "") : fieldErrors f = [] := by
  simp [fieldErrors, fieldStep, h]

/-- C17: on an exported field, reordering the directives of the metadata only
reorders the violations.  If the directives of `g` are a permutation of those
of `f`, the two fields having the same name and value, then the violations of
`g` are a permutation of those of `f`, they stand at the same place in the
result of `Validate`, and the two results are permutations of each other. -/
theorem C17_directive_order (before after : List Field) (f g : Field)
    (hxf : f.IsExported = true) (hxg : g.IsExported = true)
    (hname : g.Name = f.Name) (hval : g.Value = f.Value)
    (hperm : (strings.Split g.Tag ';').Perm (strings.Split f.Tag ';')) :
    (fieldErrors g).Perm (fieldErrors f)
    ∧ violations (Validate ⟨Kind.Struct, before ++ g :: after⟩)
      = before.flatMap fieldErrors ++ fieldErrors g ++ after.flatMap fieldErrors
    ∧ (violations (Validate ⟨Kind.Struct, before ++ g :: after⟩)).Perm
        (violations (Validate ⟨Kind.Struct, before ++ f :: after⟩)) := by
  have hp : (fieldErrors g).Perm (fieldErrors f) := by
    by_cases htf : f.Tag = ""
    · have htg : g.Tag = "" := by
        rw [htf, Split_empty] at hperm
        exact Split_eq_singleton_empty _ _ (List.perm_singleton.mp hperm)
      rw [fieldErrors_no_tag f htf, fieldErrors_no_tag g htg]
    · have htg : g.Tag ≠ "" := by
        intro h
        rw [h, Split_empty] at hperm
        exact htf (Split_eq_singleton_empty _ _ (List.perm_singleton.mp hperm.symm))
      rw [fieldErrors_exported g hxg htg, fieldErrors_exported f hxf htf, hname, hval]
      exact List.Perm.flatMap_right _ hperm
  refine ⟨hp, ?_, ?_⟩
  · rw [violations_Validate, List.flatMap_append, List.flatMap_cons]
    simp only [List.append_assoc]
  · rw [violations_Validate, violations_Validate, List.flatMap_append,
      List.flatMap_append, List.flatMap_cons, List.flatMap_cons]
    exact List.Perm.append_left _ (List.Perm.append_right _ hp)

/-- C17 at metadata `min:8;max:4` and its reordering `max:4;min:8`. -/
theorem C17_directive_order_witness :
    (violations (Validate ⟨Kind.Struct,
        [⟨"Name", true, "max:4;min:8", ⟨Kind.String, "abcdef", 0⟩⟩]⟩)).Perm
      [⟨"Name", "should have length at least 8"⟩,
       ⟨"Name", "should have length at most 4"⟩]
    ∧ violations (Validate ⟨Kind.Struct,
        [⟨"Name", true, "max:4;min:8", ⟨Kind.String, "abcdef", 0⟩⟩]⟩)
      = [⟨"Name", "should have length at most 4"⟩,
         ⟨"Name", "should have length at least 8"⟩] :=
  have h := C17_directive_order [] []
    ⟨"Name", true, "min:8;max:4", ⟨Kind.String, "abcdef", 0⟩⟩
    ⟨"Name", true, "max:4;min:8", ⟨Kind.String, "abcdef", 0⟩⟩
    rfl rfl rfl rfl (by decide)
  ⟨h.2.2.trans (by decide), h.2.1.trans (by decide)⟩

/-- C18: a record none of whose fields carries metadata is valid, whatever the
kinds, accessibility and values of its fields. -/
theorem C18_no_metadata (v : Input) (hs : v.kind = Kind.Struct)
    (h : ∀ f ∈ v.fields, f.Tag = "") :
    Validate v = none := by
  obtain ⟨k, fs⟩ := v
  simp only at hs h
  subst hs
  have hnil : fs.flatMap fieldErrors = [] :=
    List.flatMap_eq_nil_iff.mpr (fun f hf => fieldErrors_no_tag f (h f hf))
  rw [Validate_struct, hnil]
  rfl

/-- C18 at a record with an unexported field, a bool field and a nested
struct, none of them tagged. -/
theorem C18_no_metadata_witness :
    Validate ⟨Kind.Struct,
        [⟨"secret", false, "", ⟨Kind.String, "x", 0⟩⟩,
         ⟨"Flag", true, "", ⟨Kind.Bool, "", 0⟩⟩,
         ⟨"Inner", true, "", ⟨Kind.Struct, "", 0⟩⟩]⟩
      = none :=
  C18_no_metadata _ rfl (by decide)

/-- C19: on an exported field whose kind is neither `String` nor `Int`, a
directive `in:L` whose list holds no empty literal yields the violation
`(name, "should be one of L")` whatever the value of the field; inside any
record this contribution stands at the directive's place. -/
theorem C19_in_unsupported_kind (before after : List Field) (f : Field)
    (ds1 ds2 : List String) (L : String)
    (hx : f.IsExported = true)
    (hk1 : f.Value.kind ≠ Kind.String) (hk2 : f.Value.kind ≠ Kind.Int)
    (hne : "" ∉ strings.Split L ',')
    (hs : strings.Split f.Tag ';' = ds1 ++ ("in:" ++ L) :: ds2) :
    validatorErrors f.Name f.Value ("in:" ++ L)
      = [⟨f.Name, "should be one of " ++ L⟩]
    ∧ violations (Validate ⟨Kind.Struct, before ++ f :: after⟩)
      = (before.flatMap fieldErrors ++ ds1.flatMap (validatorErrors f.Name f.Value))
        ++ [⟨f.Name, "should be one of " ++ L⟩]
        ++ (ds2.flatMap (validatorErrors f.Name f.Value) ++ after.flatMap fieldErrors) := by
  have hd : "in:" ++ L ≠ "" := kind_arg_ne_empty _ _ (by decide)
  have hv : validatorErrors f.Name f.Value ("in:" ++ L)
      = [⟨f.Name, "should be one of " ++ L⟩] := by
    have he : ¬ inEmpty (strings.Split L ',') = true := fun h => hne ((inEmpty_iff _).mp h)
    have hnf : ¬ inFound f.Value (strings.Split L ',') = true := by
      rw [inFound_iff]
      rintro (⟨h, _⟩ | ⟨h, _⟩)
      · exact hk1 h
      · exact hk2 h
    rw [validatorErrors_in, if_neg he, if_neg hnf]
  exact ⟨hv, by rw [violations_at_directive before after f ds1 ds2 _ hx hd hs, hv]⟩

/-- C19 at a bool field with `in:true,false` and an `int64` field whose value
is listed. -/
theorem C19_in_unsupported_kind_witness :
    violations (Validate ⟨Kind.Struct,
        [⟨"Flag", true, "in:true,false", ⟨Kind.Bool, "true", 1⟩⟩]⟩)
      = [⟨"Flag", "should be one of true,false"⟩]
    ∧ violations (Validate ⟨Kind.Struct,
        [⟨"Count", true, "in:1,2,3", ⟨Kind.Int64, "", 2⟩⟩]⟩)
      = [⟨"Count", "should be one of 1,2,3"⟩] :=
  ⟨((C19_in_unsupported_kind [] []
        ⟨"Flag", true, "in:true,false", ⟨Kind.Bool, "true", 1⟩⟩ [] [] "true,false"
        rfl (by decide) (by decide) (by decide) (by decide)).2).trans (by decide),
   ((C19_in_unsupported_kind [] []
        ⟨"Count", true, "in:1,2,3", ⟨Kind.Int64, "", 2⟩⟩ [] [] "1,2,3"
        rfl (by decide) (by decide) (by decide) (by decide)).2).trans (by decide)⟩

/-- C20: the result of `Validate` does not depend on the values of the fields
that are not evaluated.  Two records whose fields agree pairwise on name,
accessibility, metadata and kind, and on the value wherever the field is
exported with non-empty metadata, yield the same result. -/
theorem C20_unevaluated_values (fs gs : List Field)
    (h : List.Forall₂
      (fun f g : Field =>
        f.Name = g.Name ∧ f.IsExported = g.IsExported ∧ f.Tag = g.Tag
          ∧ f.Value.kind = g.Value.kind
          ∧ (f.IsExported = true → f.Tag ≠ "" → f.Value = g.Value))
      fs gs) :
    Validate ⟨Kind.Struct, fs⟩ = Validate ⟨Kind.Struct, gs⟩ := by
  have hfe : ∀ f g : Field, f.Name = g.Name → f.IsExported = g.IsExported →
      f.Tag = g.Tag → (f.IsExported = true → f.Tag ≠ "" → f.Value = g.Value) →
      fieldErrors f = fieldErrors g := by
    intro f g hn hx ht hv
    obtain ⟨fn, fx, ft, fv⟩ := f
    obtain ⟨gn, gx, gt, gv⟩ := g
    simp only at hn hx ht hv
    subst hn hx ht
    by_cases htag : ft = ""
    · simp [fieldErrors, fieldStep, htag]
    · cases fx with
      | false => simp [fieldErrors, fieldStep, htag]
      | true => rw [hv rfl htag]
  have hflat : fs.flatMap fieldErrors = gs.flatMap fieldErrors := by
    induction h with
    | nil => rfl
    | @cons f g fs1 gs1 hfg _ ih =>
      rw [List.flatMap_cons, List.flatMap_cons,
        hfe f g hfg.1 hfg.2.1 hfg.2.2.1 hfg.2.2.2.2, ih]
  rw [Validate_struct, Validate_struct, hflat]

/-- C20 at two records that differ in the values of an unexported field, of an
untagged field, and agree on the tagged exported field. -/
theorem C20_unevaluated_values_witness :
    Validate ⟨Kind.Struct,
        [⟨"secret", false, "len:4", ⟨Kind.String, "abc", 0⟩⟩,
         ⟨"Note", true, "", ⟨Kind.String, "first", 0⟩⟩,
         ⟨"Age", true, "min:18", ⟨Kind.Int, "", 10⟩⟩]⟩
      = Validate ⟨Kind.Struct,
        [⟨"secret", false, "len:4", ⟨Kind.String, "abcd", 0⟩⟩,
         ⟨"Note", true, "", ⟨Kind.String, "second", 0⟩⟩,
         ⟨"Age", true, "min:18", ⟨Kind.Int, "", 10⟩⟩]⟩ :=
  C20_unevaluated_values _ _
    (List.Forall₂.cons ⟨rfl, rfl, rfl, rfl, fun hx _ => absurd hx (by decide)⟩
      (List.Forall₂.cons ⟨rfl, rfl, rfl, rfl, fun _ ht => absurd rfl ht⟩
        (List.Forall₂.cons ⟨rfl, rfl, rfl, rfl, fun _ _ => rfl⟩ List.Forall₂.nil)))

end Validator
